import Mathlib

/-
Verification of the tsm hierarchical state machine runtime.

The definitions below are a shallow embedding of the C++ sources:
  src/include/Event.h        (Event, the thread_local id counter)
  src/include/Transition.h   (StateTransitionTableT: Transition::doTransition, add/next)
  src/tsm.h                  (StateMachine: add, startHSM, stopHSM, OnExit, execute;
                              OrthogonalHSM::execute)
  src/include/AsyncExecutionPolicy.h (root worker-thread spawn on entry)
The EventQueue (EventQueue.h) and the startSM entry point are not under src/;
where they decide a property they are modelled from the spec and marked so.
States are identified by their stable ids; shared_ptr<State> values that may be
null are Option of a state id. Machine integers (event ids, event data, the id
counter) are uint32_t in the source; the embedding uses Nat, with reduction
modulo 2 ^ 32 made explicit in the one place an overflow can occur (the
counter).  User-supplied actions and guards are opaque: a guard is a Bool-valued
function of the event, an action is recorded by its presence and its invocation
appears in the observable trace.
-/

namespace Tsm

/-- Width of the 32-bit event id space (event_id_t = uint32_t, src/include/Event.h). -/
def W32 : Nat := 4294967296

/-- Event (src/include/Event.h lines 8-37): an integer id and an opaque data
payload; equality and ordering of Events use only the id. -/
structure Event where
  id : Nat
  data : Nat
deriving DecidableEq, Repr

/-- Event.counter_inc (src/include/Event.h lines 33-36): a thread_local uint32_t
counter, pre-incremented and returned. State-passing model of one thread's
counter: returns (new counter value, allocated id); they coincide. -/
def counter_inc (c : Nat) : Nat × Nat :=
  let c' := (c + 1) % W32
  (c', c')

/-- Initial value of every thread's thread_local counter (Event.h line 34). -/
def threadCounterInit : Nat := 0

/-- Ids handed out by n successive default Event constructions on one thread
whose counter currently holds c (Event.h lines 11-14 together with 33-36). -/
def allocSeq : Nat → Nat → List Nat
  | _, 0 => []
  | c, n + 1 =>
    let p := counter_inc c
    p.2 :: allocSeq p.1 n

/-- Ids handed out by default Event constructions across several threads: the
schedule lists the constructing thread of each Event in program order, and each
thread owns an independent thread_local counter (Event.h line 34), given by the
second argument. Returns (thread, allocated id) pairs in construction order. -/
def allocIds : List Nat → (Nat → Nat) → List (Nat × Nat)
  | [], _ => []
  | t :: ts, ctrs =>
    let p := counter_inc (ctrs t)
    (t, p.2) :: allocIds ts (fun u => if u = t then p.1 else ctrs u)

/-- null_event (Event.h line 44): a default-constructed Event created at static
initialization, i.e. the first allocation of the initializing thread's counter:
id 1, data 0. -/
def null_event : Event := ⟨1, 0⟩

/-- Transition record (src/include/Transition.h lines 17-50): target state id,
the optional action (opaque user code, tracked by its presence; its invocation
is an observable) and the optional guard predicate over the event. -/
structure Tr where
  toS : Nat
  hasAction : Bool
  guard : Option (Event → Bool)

/-- Table key: a (from-state id, event id) pair. State identity is the owning
state (pointer identity of the shared state node in tsm.h, the stable state id
in Transition.h); Event comparison uses only the id. -/
abbrev TKey := Nat × Nat

/-- std::unordered_map::insert as used by both addTransition overloads
(src/tsm.h lines 230-237 and src/include/Transition.h lines 104-111): the
element is inserted only when no element with an equivalent key is present
already; an insert with an existing key changes nothing. -/
def insertTT (tbl : List (TKey × Tr)) (k : TKey) (t : Tr) : List (TKey × Tr) :=
  if (tbl.find? (fun p => p.1 == k)).isSome then tbl else tbl ++ [(k, t)]

/-- Transition lookup, StateTransitionTable::next (src/tsm.h lines 40-52) and
StateTransitionTableT::next (src/include/Transition.h lines 70-80): find the
entry for (currentState, event); a null current state matches no entry. -/
def nextTr (tbl : List (TKey × Tr)) (cur : Option Nat) (e : Event) : Option Tr :=
  match cur with
  | none => none
  | some c => (tbl.find? (fun p => p.1 == (c, e.id))).map (fun p => p.2)

/-- std::set<Event>::insert on the recognized-event set (tsm.h line 98,
Transition.h line 98): Events compare by id; a present id is left alone. -/
def insertES (s : List Nat) (i : Nat) : List Nat :=
  if i ∈ s then s else s ++ [i]

/-- Observable calls the dispatcher makes into user code. Each constructor
records the machine's currentState at the moment of the call, so the placement
of the currentState assignment inside a transition is visible in the trace. -/
inductive Obs where
  | onExitO (s : Option Nat) (e : Event) (cur : Option Nat)
  | actionO (e : Event) (cur : Option Nat)
  | onEntryO (s : Option Nat) (e : Event) (cur : Option Nat)
  | execO (s : Nat)
  | unhandledO (e : Event)
deriving DecidableEq, Repr

/-- StateMachine state (src/tsm.h lines 21-239): current, start and stop states
(shared_ptr, possibly null: Option of a state id), the transition table, the
recognized-event set, the parent pointer (modelled by its presence) and the
atomic interrupt flag. The shared EventQueue is passed to the dispatch
functions separately, as it is shared along the hierarchy. -/
structure Machine where
  current : Option Nat
  startS : Option Nat
  stopS : Option Nat
  table : List (TKey × Tr)
  eventSet : List Nat
  hasParent : Bool
  interrupt : Bool

/-- StateMachine constructor (tsm.h lines 66-84): currentState_ starts null and
interrupt_ false; the table and event set start empty. -/
def mkMachine (startS stopS : Option Nat) (hasParent : Bool) : Machine :=
  ⟨none, startS, stopS, [], [], hasParent, false⟩

/-- StateMachine::add (tsm.h lines 88-99; likewise StateTransitionTableT::add,
Transition.h lines 90-99): build the transition record, insert it under the
(fromState, event) key, and insert the event into the recognized set. -/
def Machine.add (m : Machine) (fromS : Nat) (e : Event) (toS : Nat)
    (hasAction : Bool) (guard : Option (Event → Bool)) : Machine :=
  { m with
    table := insertTT m.table (fromS, e.id) ⟨toS, hasAction, guard⟩
    eventSet := insertES m.eventSet e.id }

/-- Guard evaluation (Transition.h lines 30-32, identically tsm.h lines
186-190): result = guard && guard(e); the transition proceeds iff
!guard || result, so a missing guard always passes. -/
def guardPass (g : Option (Event → Bool)) (e : Event) : Bool :=
  match g with
  | none => true
  | some f => f e

/-- Transition::doTransition (src/include/Transition.h lines 25-46): when the
guard passes, call currentState.onExit(e), invoke the action if there is one,
assign currentState = toState, then call toState.onEntry(e), and report that a
transition happened. When the guard fails nothing is called, nothing changes,
and false is reported. -/
def doTransition (m : Machine) (t : Tr) (e : Event) : Machine × List Obs × Bool :=
  if guardPass t.guard e then
    let tr1 := [Obs.onExitO m.current e m.current]
    let tr2 := tr1 ++ (if t.hasAction then [Obs.actionO e m.current] else [])
    let m' := { m with current := some t.toS }
    (m', tr2 ++ [Obs.onEntryO (some t.toS) e m'.current], true)
  else (m, [], false)

/-- How a run of a dispatch loop ended. stopped: left the loop via the
interrupt flag or the stop-state check; yielded: an unhandled event was pushed
to the queue front and control returned to the parent's dispatch; blocked: the
loop is inside EventQueue nextEvent waiting on an empty queue; fuelOut:
artifact of the fuel-bounded model, never reached with ample fuel. -/
inductive Outcome where
  | stopped
  | yielded
  | blocked
  | fuelOut
deriving DecidableEq, Repr

/-- Result of running a dispatch loop: final machine, remaining queue,
observable trace, and how the loop ended. -/
structure ExecResult where
  m : Machine
  q : List Event
  tr : List Obs
  oc : Outcome

/-- StateMachine::execute (src/tsm.h lines 147-206), fuel-bounded. One
iteration: exit when interrupt_ is set; if currentState == stopState, set
interrupt_ and exit; otherwise dequeue the next event (the queue is modelled
from the spec, EventQueue.h not being under src/: a front-to-back list whose
nextEvent blocks on an empty queue and returns the head, and whose addFront
prepends). On a table miss, when a parent exists the event goes back to the
queue front and the loop breaks (yields to the parent); at the root the event
is logged and discarded and the loop continues. On a hit, doTransition runs
and, when it transitioned, the new current state's execute() is called
(tsm.h line 200; the embedded machines' states are leaves, whose execute is a
no-op, recorded as an observable). -/
def execLoop : Nat → Machine → List Event → ExecResult
  | 0, m, q => ⟨m, q, [], .fuelOut⟩
  | fuel + 1, m, q =>
    if m.interrupt then ⟨m, q, [], .stopped⟩
    else if m.current = m.stopS then ⟨{ m with interrupt := true }, q, [], .stopped⟩
    else
      match q with
      | [] => ⟨m, [], [], .blocked⟩
      | e :: rest =>
        match nextTr m.table m.current e with
        | none =>
          if m.hasParent then ⟨m, e :: rest, [], .yielded⟩
          else
            let r := execLoop fuel m rest
            ⟨r.m, r.q, Obs.unhandledO e :: r.tr, r.oc⟩
        | some t =>
          let p := doTransition m t e
          let hitTr := if p.2.2 then p.2.1 ++ [Obs.execO t.toS] else p.2.1
          let r := execLoop fuel p.1 rest
          ⟨r.m, r.q, hitTr ++ r.tr, r.oc⟩

/-- StateMachine::startHSM (src/tsm.h lines 123-132): set currentState to the
start state and, when there is no parent (root machine), spawn the worker
thread (the returned flag; likewise AsyncExecutionPolicy::onEntry,
src/include/AsyncExecutionPolicy.h lines 38-42, spawns the worker on the root's
entry). No lifecycle condition is checked and nothing is returned. -/
def startHSM (m : Machine) : Machine × Bool :=
  ({ m with current := m.startS }, !m.hasParent)

/-- StateMachine::stopHSM (src/tsm.h lines 134-145): set the interrupt flag
and, at the root, stop the queue and join the worker (the returned flag). No
lifecycle condition is checked and nothing is returned. -/
def stopHSM (m : Machine) : Machine × Bool :=
  ({ m with interrupt := true }, !m.hasParent)

/-- StateMachine::OnExit (src/tsm.h lines 111-121): clear currentState to null,
then stopHSM. -/
def OnExitM (m : Machine) : Machine :=
  (stopHSM { m with current := none }).1

/-- Modelled from the spec: the start entry point (startSM of the missing
StateMachineDef / execution-policy headers; src/include/Event.h lines 39-44
documents that it passes null_event to the automatic onEntry) invokes the start
state's onEntry with null_event. The currentState assignment and the
root-only worker spawn are startHSM (src/tsm.h lines 123-132) and
AsyncExecutionPolicy::onEntry (src/include/AsyncExecutionPolicy.h lines
38-42). -/
def startSM (m : Machine) : Machine × List Obs × Bool :=
  let p := startHSM m
  (p.1, [Obs.onEntryO p.1.current null_event p.1.current], p.2)

/-- OrthogonalHSM state (src/tsm.h lines 241-316): the two child machines (the
constructor sets their parent to the orthogonal machine itself), the interrupt
flag, and the parent pointer of the orthogonal machine itself. -/
structure Orth where
  h1 : Machine
  h2 : Machine
  hasParent : Bool
  interrupt : Bool

/-- Routing disposition of the event dequeued by OrthogonalHSM::execute. -/
inductive Route where
  | backToA
  | toParent
  | discardRoot
deriving DecidableEq, Repr

/-- Routing decision of OrthogonalHSM::execute (src/tsm.h lines 295-307): only
hsm1's recognized-event set is consulted; an event in it goes back to the queue
front for the next iteration, any other event is unhandled: to the parent when
one exists, logged and discarded at the root. -/
def orthRoute (h1Events : List Nat) (hasParent : Bool) (e : Event) : Route :=
  if e.id ∈ h1Events then .backToA
  else if hasParent then .toParent
  else .discardRoot

/-- Result of running the orthogonal dispatch loop: final composite, remaining
queue, hsm1's trace, hsm2's trace, the orthogonal machine's own trace, and how
the loop ended. -/
structure OrthResult where
  o : Orth
  q : List Event
  trA : List Obs
  trB : List Obs
  trSelf : List Obs
  oc : Outcome

/-- OrthogonalHSM::execute (src/tsm.h lines 279-309), fuel-bounded. One
iteration: exit when interrupt_ is set; run hsm1's dispatch loop, then hsm2's
dispatch loop, on the shared queue (each blocks inside its own nextEvent if it
drains the queue, in which case the whole loop is stuck there); then dequeue
the next event and route it by orthRoute: back to the front and around the
loop when hsm1 recognizes it, else to the front and break for the parent, else
log and discard and continue. -/
def orthExec : Nat → Orth → List Event → OrthResult
  | 0, o, q => ⟨o, q, [], [], [], .fuelOut⟩
  | fuel + 1, o, q =>
    if o.interrupt then ⟨o, q, [], [], [], .stopped⟩
    else
      let r1 := execLoop (fuel + 1) o.h1 q
      if r1.oc = .blocked ∨ r1.oc = .fuelOut then
        ⟨{ o with h1 := r1.m }, r1.q, r1.tr, [], [], r1.oc⟩
      else
        let r2 := execLoop (fuel + 1) o.h2 r1.q
        if r2.oc = .blocked ∨ r2.oc = .fuelOut then
          ⟨{ o with h1 := r1.m, h2 := r2.m }, r2.q, r1.tr, r2.tr, [], r2.oc⟩
        else
          match r2.q with
          | [] => ⟨{ o with h1 := r1.m, h2 := r2.m }, [], r1.tr, r2.tr, [], .blocked⟩
          | e :: rest =>
            match orthRoute r1.m.eventSet o.hasParent e with
            | .backToA =>
              let r := orthExec fuel { o with h1 := r1.m, h2 := r2.m } (e :: rest)
              ⟨r.o, r.q, r1.tr ++ r.trA, r2.tr ++ r.trB, r.trSelf, r.oc⟩
            | .toParent =>
              ⟨{ o with h1 := r1.m, h2 := r2.m }, e :: rest, r1.tr, r2.tr, [], .yielded⟩
            | .discardRoot =>
              let r := orthExec fuel { o with h1 := r1.m, h2 := r2.m } rest
              ⟨r.o, r.q, r1.tr ++ r.trA, r2.tr ++ r.trB, Obs.unhandledO e :: r.trSelf, r.oc⟩

/-- Event ids a trace shows as consumed by a transition (one onEntry per taken
transition). -/
def handledIds (tr : List Obs) : List Nat :=
  tr.filterMap (fun o =>
    match o with
    | .onEntryO _ e _ => some e.id
    | _ => none)

/-- Invariant claimed of currentState: null, the declared start state, or the
target state of some entry of the machine's own transition table. -/
def inv (m : Machine) : Prop :=
  m.current = none ∨ m.current = m.startS ∨ ∃ p ∈ m.table, m.current = some p.2.toS

/-- Scenario child A of the spec's orthogonal routing scenario: one state (10),
self-loop transitions on events 1 and 3, so A recognizes ids 1 and 3. -/
def machA : Machine :=
  { current := some 10, startS := some 10, stopS := none,
    table := [((10, 1), ⟨10, false, none⟩), ((10, 3), ⟨10, false, none⟩)],
    eventSet := [1, 3], hasParent := true, interrupt := false }

/-- Scenario child B: one state (20), self-loop transition on event 2, so B
recognizes id 2. -/
def machB : Machine :=
  { current := some 20, startS := some 20, stopS := none,
    table := [((20, 2), ⟨20, false, none⟩)],
    eventSet := [2], hasParent := true, interrupt := false }

/-- The orthogonal composite of machA and machB at the root. -/
def orthAB : Orth := ⟨machA, machB, false, false⟩

/-- The scenario event feed a1, b1, a1, b1 with a1 = id 1 and b1 = id 2. -/
def scenQ : List Event := [⟨1, 0⟩, ⟨2, 0⟩, ⟨1, 0⟩, ⟨2, 0⟩]

/-- Counterexample child B for the routing claim: B recognizes event id 2 (its
table has an entry on id 2, from state 21), but its current state 20 has no
transition on id 2. -/
def machBrec : Machine :=
  { current := some 20, startS := some 20, stopS := none,
    table := [((21, 2), ⟨22, false, none⟩)],
    eventSet := [2], hasParent := true, interrupt := false }

/-- The orthogonal composite of machA and machBrec at the root. -/
def orthCex : Orth := ⟨machA, machBrec, false, false⟩

/-- A machine mid-run for the lifecycle claims: declared start state 1, current
state 2 (it has advanced past its start state), not interrupted. -/
def runningM : Machine :=
  { current := some 2, startS := some 1, stopS := none,
    table := [((1, 7), ⟨2, false, none⟩)],
    eventSet := [7], hasParent := false, interrupt := false }

/-- A machine never started (currentState null) for the stop-before-start
case. -/
def idleM : Machine := mkMachine (some 1) none false

/-- Concrete machine for the transition-order witness: one transition from
state 1 on event id 7 to state 2 with an action and no guard. -/
def M3 : Machine :=
  { current := some 1, startS := some 1, stopS := none,
    table := [((1, 7), ⟨2, true, none⟩)],
    eventSet := [7], hasParent := false, interrupt := false }

/-- The transition record M3's table holds. -/
def T3 : Tr := ⟨2, true, none⟩

/-- The event dispatched in the transition-order witness. -/
def E3 : Event := ⟨7, 42⟩

/-- A concrete guard that passes only for events whose data is 99. -/
def G4 : Event → Bool := fun e => decide (e.data = 99)

/-- Concrete machine for the guard witness: one transition from state 1 on
event id 7 guarded by G4. -/
def M4 : Machine :=
  { current := some 1, startS := some 1, stopS := none,
    table := [((1, 7), ⟨2, false, some G4⟩)],
    eventSet := [7], hasParent := false, interrupt := false }

/-- The guarded transition record M4's table holds. -/
def T4 : Tr := ⟨2, false, some G4⟩

/-- The event dispatched in the guard witness; its data 0 fails G4. -/
def E4 : Event := ⟨7, 0⟩

/-- Concrete child machine for the unhandled-event witness: it has a parent and
no transition on event id 9 from its current state. -/
def M6 : Machine :=
  { current := some 1, startS := some 1, stopS := none,
    table := [((1, 7), ⟨2, false, none⟩)],
    eventSet := [7], hasParent := true, interrupt := false }

/-- The root variant of M6 (no parent). -/
def M6root : Machine :=
  { M6 with hasParent := false }

/-- The unrecognized event of the unhandled-event witness, with data 5. -/
def E6 : Event := ⟨9, 5⟩

/-- Concrete machine for the stop-state witness: stop state 3, one transition
from current state 1 on event id 7 landing directly on the stop state. -/
def M7 : Machine :=
  { current := some 1, startS := some 1, stopS := some 3,
    table := [((1, 7), ⟨3, false, none⟩)],
    eventSet := [7], hasParent := false, interrupt := false }

/-- The transition record M7's table holds. -/
def T7 : Tr := ⟨3, false, none⟩

/-- The event dispatched in the stop-state witness. -/
def E7 : Event := ⟨7, 0⟩

/-- Appending an entry with key k to a table makes a lookup for k succeed. -/
lemma find?_append_self (l : List (TKey × Tr)) (k : TKey) (t : Tr) :
    ((l ++ [(k, t)]).find? (fun p => p.1 == k)).isSome := by
  induction l with
  | nil => simp [List.find?]
  | cons a l ih =>
    rw [List.cons_append]
    by_cases ha : (a.1 == k) = true
    · rw [@List.find?_cons_of_pos _ (fun p => p.1 == k) a (l ++ [(k, t)]) ha]
      rfl
    · rw [@List.find?_cons_of_neg _ (fun p => p.1 == k) a (l ++ [(k, t)]) ha]
      exact ih

/-- After insertTT with key k, a lookup for k succeeds. -/
lemma find?_isSome_insertTT (tbl : List (TKey × Tr)) (k : TKey) (t : Tr) :
    ((insertTT tbl k t).find? (fun p => p.1 == k)).isSome := by
  unfold insertTT
  split
  next h => exact h
  next h => exact find?_append_self tbl k t

/-- C2 counterexample: the claim says a second add with the same
(fromState, event) key replaces the earlier record so that next returns the
later-declared toState. On the code, inserting the key (1, 5) first with
target state 2 and then with target state 3 leaves the lookup returning
target 2, not 3: std::unordered_map::insert does not overwrite. -/
theorem table_overwrite_cex :
    (nextTr (insertTT (insertTT [] (1, 5) ⟨2, false, none⟩) (1, 5) ⟨3, false, none⟩)
        (some 1) ⟨5, 0⟩).map Tr.toS = some 2
  ∧ ¬ ((nextTr (insertTT (insertTT [] (1, 5) ⟨2, false, none⟩) (1, 5) ⟨3, false, none⟩)
        (some 1) ⟨5, 0⟩).map Tr.toS = some 3) := by
  constructor <;> decide

/-- C2 amended: each (fromState, event) key maps to at most one transition
(a table with duplicate-free keys keeps duplicate-free keys under add), and
calling add a second time with the same key is ignored — insert does not
overwrite — so a subsequent next returns the first-declared transition. -/
theorem table_insert_amended :
    (∀ (tbl : List (TKey × Tr)) (k : TKey) (t t' : Tr),
        insertTT (insertTT tbl k t) k t' = insertTT tbl k t)
  ∧ (∀ (tbl : List (TKey × Tr)) (k : TKey) (t : Tr),
        (tbl.map Prod.fst).Nodup → ((insertTT tbl k t).map Prod.fst).Nodup) := by
  constructor
  · intro tbl k t t'
    conv_lhs => rw [insertTT]
    rw [if_pos (find?_isSome_insertTT tbl k t)]
  · intro tbl k t hnd
    unfold insertTT
    split
    · exact hnd
    next h =>
      rw [List.map_append]
      refine List.Nodup.append hnd (by simp) ?_
      intro x hx hx2
      simp only [List.map_cons, List.map_nil, List.mem_singleton] at hx2
      subst hx2
      have hnone : tbl.find? (fun p => p.1 == x) = none := by
        cases hfind : tbl.find? (fun p => p.1 == x) with
        | none => rfl
        | some a => exact absurd (by rw [hfind]; rfl) h
      rw [List.find?_eq_none] at hnone
      obtain ⟨p, hp, hfst⟩ := List.mem_map.mp hx
      exact hnone p hp (by simp [hfst])

/-- C2 witness: inserting key (1, 5) twice equals inserting it once, and the
one-element key list stays duplicate-free. -/
theorem table_insert_amended_witness :
    insertTT (insertTT [] (1, 5) ⟨2, false, none⟩) (1, 5) ⟨3, false, none⟩
      = insertTT [] (1, 5) ⟨2, false, none⟩
  ∧ ((insertTT [] (1, 5) (⟨2, false, none⟩ : Tr)).map Prod.fst).Nodup :=
  ⟨table_insert_amended.1 [] (1, 5) ⟨2, false, none⟩ ⟨3, false, none⟩,
   table_insert_amended.2 [] (1, 5) ⟨2, false, none⟩ (by simp)⟩

/-- C5: startSM sets currentState to the declared start state, invokes the
start state's onEntry with null_event, and spawns the worker thread exactly
when the machine is the root (no parent). -/
theorem startSM_behavior : ∀ m : Machine,
    (startSM m).1.current = m.startS
  ∧ (startSM m).2.1 = [Obs.onEntryO m.startS null_event m.startS]
  ∧ (startSM m).2.2 = !m.hasParent := by
  intro m
  exact ⟨rfl, rfl, rfl⟩

/-- While the counter does not wrap, the ids handed out on one thread are the
consecutive values above the starting counter. -/
lemma allocSeq_no_wrap : ∀ (n c : Nat), c + n < W32 →
    allocSeq c n = (List.range n).map (fun k => c + k + 1) := by
  intro n
  induction n with
  | zero => intro c h; simp [allocSeq]
  | succ n ih =>
    intro c h
    have h1 : c + 1 < W32 := by omega
    have h2 : (c + 1) + n < W32 := by omega
    have harith : ∀ k : Nat, c + 1 + k + 1 = c + (k + 1) + 1 := by intro k; omega
    simp only [allocSeq, counter_inc]
    rw [Nat.mod_eq_of_lt h1, ih (c + 1) h2, List.range_succ_eq_map]
    simp [List.map_map, Function.comp_def, harith]

/-- C8 counterexample: the counter is thread_local, so each thread's counter
starts at 0. Two events default-constructed on two different threads (thread
tags 0 and 1, both counters at the initial value 0) both receive id 1: the
pair of ids fails to be distinct, refuting process-uniqueness. -/
theorem event_id_cex :
    allocIds [0, 1] (fun _ => threadCounterInit) = [(0, 1), (1, 1)]
  ∧ ¬ ((allocIds [0, 1] (fun _ => threadCounterInit)).map Prod.snd).Nodup := by
  constructor <;> decide

/-- C8 amended: ids of default-constructed events are drawn only from the
factory counter, and any two events default-constructed on the same thread
receive distinct ids as long as the thread's 32-bit counter does not wrap;
the counter is thread_local, so uniqueness is per thread, not per process. -/
theorem event_id_amended : ∀ (c n : Nat), c + n < W32 →
    (allocSeq c n).Nodup ∧ (allocSeq c n).length = n := by
  intro c n h
  rw [allocSeq_no_wrap n c h]
  constructor
  · refine List.Nodup.map ?_ (List.nodup_range n)
    intro a b hab
    have hab' : c + a + 1 = c + b + 1 := hab
    omega
  · simp

/-- C8 witness: four events default-constructed on one fresh thread receive
four pairwise distinct ids. -/
theorem event_id_amended_witness :
    (allocSeq threadCounterInit 4).Nodup ∧ (allocSeq threadCounterInit 4).length = 4 :=
  event_id_amended threadCounterInit 4 (by decide)

/-- C9 counterexample: startHSM on a machine that is already running (current
state 2, past its declared start state 1) resets currentState to the start
state — a state change, not a no-op, and the void-returning source reports no
error; stopHSM on a machine that was never started sets the interrupt flag —
again a state change with no error returned. -/
theorem lifecycle_cex :
    (startHSM runningM).1.current = some 1
  ∧ runningM.current = some 2
  ∧ (stopHSM idleM).1.interrupt = true
  ∧ idleM.interrupt = false
  ∧ idleM.current = none :=
  ⟨rfl, rfl, rfl, rfl, rfl⟩

/-- C9 amended: startHSM and stopHSM perform no lifecycle check and return no
error code: startHSM unconditionally (re)sets currentState to the start state
and reports a worker spawn exactly at the root, and stopHSM unconditionally
sets the interrupt flag and leaves currentState alone, whatever state the
machine is in. -/
theorem lifecycle_amended : ∀ m : Machine,
    (startHSM m).1.current = m.startS
  ∧ (startHSM m).1.interrupt = m.interrupt
  ∧ (startHSM m).2 = !m.hasParent
  ∧ (stopHSM m).1.interrupt = true
  ∧ (stopHSM m).1.current = m.current := by
  intro m
  exact ⟨rfl, rfl, rfl, rfl, rfl⟩

/-- C3: when a dispatched event hits a transition whose guard passes (or is
absent), the observable effects occur in exactly this order: onExit of the
current state with the event, then the action if there is one, then the
assignment of currentState to the target state, then the target state's
onEntry with the event, then the target state's execute. The cur component of
each observation records currentState at the moment of the call: still the old
state during onExit and the action, already the target during onEntry, so the
action runs between exit and entry. -/
theorem transition_order : ∀ (m : Machine) (e : Event) (t : Tr),
    m.interrupt = false →
    m.current ≠ m.stopS →
    nextTr m.table m.current e = some t →
    guardPass t.guard e = true →
    some t.toS ≠ m.stopS →
    execLoop 2 m [e] =
      ⟨{ m with current := some t.toS }, [],
        [Obs.onExitO m.current e m.current]
          ++ (if t.hasAction then [Obs.actionO e m.current] else [])
          ++ [Obs.onEntryO (some t.toS) e (some t.toS), Obs.execO t.toS],
        .blocked⟩ := by
  intro m e t h1 h2 h3 h4 h5
  simp [execLoop, doTransition, h1, h2, h3, h4, h5]

/-- C3 witness: on the concrete machine M3, dispatching E3 through its
action-carrying unguarded transition produces exactly the trace exit, action,
entry, execute, with currentState moving from state 1 to state 2 between the
action and the entry. -/
theorem transition_order_witness :
    execLoop 2 M3 [E3] =
      ⟨{ M3 with current := some 2 }, [],
        [Obs.onExitO (some 1) E3 (some 1), Obs.actionO E3 (some 1),
         Obs.onEntryO (some 2) E3 (some 2), Obs.execO 2],
        .blocked⟩ := by
  have h := transition_order M3 E3 T3 rfl (by decide) rfl rfl (by decide)
  simpa using h

/-- C4: a missing guard means the transition is always taken (doTransition
reports true and moves to the target state), and a guard that evaluates to
false leaves the event consumed but inert: the dispatched event is dequeued,
yet the machine is unchanged and no onExit, action or onEntry observation is
produced. -/
theorem guard_semantics :
    (∀ (m : Machine) (t : Tr) (e : Event), t.guard = none →
        (doTransition m t e).2.2 = true
      ∧ (doTransition m t e).1.current = some t.toS)
  ∧ (∀ (m : Machine) (t : Tr) (e : Event),
        m.interrupt = false → m.current ≠ m.stopS →
        nextTr m.table m.current e = some t →
        guardPass t.guard e = false →
        execLoop 2 m [e] = ⟨m, [], [], .blocked⟩) := by
  constructor
  · intro m t e hg
    constructor <;> simp [doTransition, guardPass, hg]
  · intro m t e h1 h2 h3 h4
    simp [execLoop, doTransition, h1, h2, h3, h4]

/-- C4 witness: on the concrete machine M4, whose transition is guarded by G4,
dispatching E4 (whose data fails the guard) dequeues the event yet changes
nothing and produces no observation; and an unguarded transition record is
always taken. -/
theorem guard_semantics_witness :
    execLoop 2 M4 [E4] = ⟨M4, [], [], .blocked⟩
  ∧ (doTransition M4 ⟨5, false, none⟩ E4).2.2 = true :=
  ⟨guard_semantics.2 M4 T4 E4 rfl (by decide) rfl rfl,
   (guard_semantics.1 M4 ⟨5, false, none⟩ E4 rfl).1⟩

/-- C6: on a table miss for the dequeued event, a machine with a parent pushes
the event — with its original id and data — back to the front of the shared
queue and breaks out of its loop, so the parent's next dequeue observes
exactly that event; the root machine instead logs the event as unhandled,
discards it, leaves the machine (in particular currentState) unchanged, and
continues dispatching the rest of the queue. -/
theorem unhandled_propagation :
    (∀ (m : Machine) (e : Event) (rest : List Event) (fuel : Nat),
        m.interrupt = false → m.current ≠ m.stopS →
        nextTr m.table m.current e = none → m.hasParent = true →
        execLoop (fuel + 1) m (e :: rest) = ⟨m, e :: rest, [], .yielded⟩
      ∧ (execLoop (fuel + 1) m (e :: rest)).q.head? = some e)
  ∧ (∀ (m : Machine) (e : Event) (rest : List Event) (fuel : Nat),
        m.interrupt = false → m.current ≠ m.stopS →
        nextTr m.table m.current e = none → m.hasParent = false →
        execLoop (fuel + 1) m (e :: rest) =
          ⟨(execLoop fuel m rest).m, (execLoop fuel m rest).q,
            Obs.unhandledO e :: (execLoop fuel m rest).tr,
            (execLoop fuel m rest).oc⟩) := by
  constructor
  · intro m e rest fuel h1 h2 h3 h4
    constructor <;> simp [execLoop, h1, h2, h3, h4]
  · intro m e rest fuel h1 h2 h3 h4
    simp [execLoop, h1, h2, h3, h4]

/-- C6 witness: the child M6 yields on the unrecognized event E6, leaving the
queue with E6 (id 9, data 5) at the front for its parent and itself unchanged;
the root variant M6root logs E6 as unhandled, stays in its state, and goes on
to process the recognized event id 7 that follows. -/
theorem unhandled_propagation_witness :
    execLoop 3 M6 [E6, ⟨7, 0⟩] = ⟨M6, [E6, ⟨7, 0⟩], [], .yielded⟩
  ∧ (execLoop 3 M6 [E6, ⟨7, 0⟩]).q.head? = some ⟨9, 5⟩
  ∧ (execLoop 3 M6root [E6, ⟨7, 0⟩]).tr.head? = some (Obs.unhandledO E6)
  ∧ (execLoop 3 M6root [E6, ⟨7, 0⟩]).m.current = some 2 := by
  have h1 := (unhandled_propagation.1 M6 E6 [⟨7, 0⟩] 2 rfl (by decide) rfl rfl).1
  have h2 := (unhandled_propagation.1 M6 E6 [⟨7, 0⟩] 2 rfl (by decide) rfl rfl).2
  have h3 := unhandled_propagation.2 M6root E6 [⟨7, 0⟩] 2 rfl (by decide) rfl rfl
  refine ⟨h1, h2, ?_, ?_⟩ <;> rw [h3] <;> rfl

/-- C7: the dispatcher compares currentState to stopState only at the start of
an iteration, before dequeuing: when they are equal it sets the interrupt flag
and terminates with the queue untouched and nothing dispatched; and a
transition landing directly on stopState completes in full (exit, entry,
execute all run) and the loop exits only at the next iteration's check, with
the remaining queue never dequeued. -/
theorem stopState_check :
    (∀ (m : Machine) (q : List Event) (fuel : Nat),
        m.interrupt = false → m.current = m.stopS →
        execLoop (fuel + 1) m q = ⟨{ m with interrupt := true }, q, [], .stopped⟩)
  ∧ (∀ (m : Machine) (e : Event) (rest : List Event) (t : Tr) (fuel : Nat),
        m.interrupt = false → m.current ≠ m.stopS →
        nextTr m.table m.current e = some t →
        t.guard = none →
        some t.toS = m.stopS →
        execLoop (fuel + 2) m (e :: rest) =
          ⟨{ m with current := some t.toS, interrupt := true }, rest,
            [Obs.onExitO m.current e m.current]
              ++ (if t.hasAction then [Obs.actionO e m.current] else [])
              ++ [Obs.onEntryO (some t.toS) e (some t.toS), Obs.execO t.toS],
            .stopped⟩) := by
  constructor
  · intro m q fuel h1 h2
    simp [execLoop, h1, h2]
  · intro m e rest t fuel h1 h2 h3 h4 h5
    simp [execLoop, doTransition, guardPass, h1, h2, h3, h4, h5]

/-- C7 witness: M7 at state 1 with stop state 3 processes E7 in full (its
transition lands on the stop state 3), then terminates on the next iteration
with the trailing event id 8 never dequeued; and a machine already at its stop
state terminates immediately with the queue untouched. -/
theorem stopState_check_witness :
    execLoop 5 M7 [E7, ⟨8, 0⟩] =
      ⟨{ M7 with current := some 3, interrupt := true }, [⟨8, 0⟩],
        [Obs.onExitO (some 1) E7 (some 1),
         Obs.onEntryO (some 3) E7 (some 3), Obs.execO 3],
        .stopped⟩
  ∧ execLoop 4 { M7 with current := some 3 } [⟨8, 0⟩] =
      ⟨{ M7 with current := some 3, interrupt := true }, [⟨8, 0⟩], [], .stopped⟩ := by
  have h1 := stopState_check.2 M7 E7 [⟨8, 0⟩] T7 3 rfl (by decide) rfl rfl rfl
  have h2 := stopState_check.1 { M7 with current := some 3 } [⟨8, 0⟩] 3 rfl rfl
  constructor
  · simpa using h1
  · simpa using h2

/-- A transition returned by nextTr is the payload of some entry of the
table. -/
lemma nextTr_mem (tbl : List (TKey × Tr)) (cur : Option Nat) (e : Event) (t : Tr) :
    nextTr tbl cur e = some t → ∃ p ∈ tbl, p.2 = t := by
  unfold nextTr
  cases cur with
  | none => intro h; exact absurd h (by simp)
  | some c =>
    intro h
    obtain ⟨p, hp, hpt⟩ := Option.map_eq_some'.mp h
    exact ⟨p, List.mem_of_find?_eq_some hp, hpt⟩

/-- doTransition preserves the currentState invariant: it either leaves the
machine alone or moves currentState to the target of the entry the lookup
returned. -/
lemma inv_doTransition (m : Machine) (t : Tr) (e : Event)
    (hm : inv m) (h : nextTr m.table m.current e = some t) :
    inv (doTransition m t e).1 := by
  unfold doTransition
  split
  · obtain ⟨p, hp, hpt⟩ := nextTr_mem m.table m.current e t h
    right; right
    exact ⟨p, hp, by rw [hpt]⟩
  · exact hm

/-- The dispatch loop preserves the currentState invariant. -/
lemma execLoop_inv : ∀ (fuel : Nat) (m : Machine) (q : List Event),
    inv m → inv (execLoop fuel m q).m := by
  intro fuel
  induction fuel with
  | zero => intro m q hm; exact hm
  | succ fuel ih =>
    intro m q hm
    by_cases hI : m.interrupt = true
    · simpa [execLoop, hI] using hm
    by_cases hS : m.current = m.stopS
    · have hres : (execLoop (fuel + 1) m q).m = { m with interrupt := true } := by
        simp [execLoop, hI, hS]
      rw [hres]
      exact hm
    cases q with
    | nil => simpa [execLoop, hI, hS] using hm
    | cons e rest =>
      cases hN : nextTr m.table m.current e with
      | none =>
        by_cases hP : m.hasParent = true
        · simpa [execLoop, hI, hS, hN, hP] using hm
        · simpa [execLoop, hI, hS, hN, hP] using ih m rest hm
      | some t =>
        simpa [execLoop, hI, hS, hN] using
          ih (doTransition m t e).1 rest (inv_doTransition m t e hm hN)

/-- C10: every operation keeps currentState either nil (a freshly constructed
machine, or after OnExit, which resets it to nil), the machine's declared
start state (set by startHSM), or the target state of some entry of its own
transition table — the only assignment the dispatch loop ever makes; add only
grows the table, so the invariant survives it too. -/
theorem currentState_invariant :
    (∀ (s1 s2 : Option Nat) (hp : Bool), inv (mkMachine s1 s2 hp))
  ∧ (∀ m : Machine, inv (startHSM m).1)
  ∧ (∀ m : Machine, inv (OnExitM m))
  ∧ (∀ (m : Machine) (fromS : Nat) (e : Event) (toS : Nat)
        (a : Bool) (g : Option (Event → Bool)),
        inv m → inv (m.add fromS e toS a g))
  ∧ (∀ (fuel : Nat) (m : Machine) (q : List Event),
        inv m → inv (execLoop fuel m q).m) := by
  refine ⟨?_, ?_, ?_, ?_, execLoop_inv⟩
  · intro s1 s2 hp; left; rfl
  · intro m; right; left; rfl
  · intro m; left; rfl
  · intro m fromS e toS a g hm
    rcases hm with h | h | ⟨p, hp, hcur⟩
    · left; exact h
    · right; left; exact h
    · right; right
      refine ⟨p, ?_, hcur⟩
      show p ∈ insertTT m.table (fromS, e.id) ⟨toS, a, g⟩
      unfold insertTT
      split
      · exact hp
      · exact List.mem_append_left _ hp

/-- C10 witness: runningM satisfies the invariant (its current state 2 is the
target of its table's only entry), and so does the machine the dispatch loop
leaves behind after consuming event id 7. -/
theorem currentState_invariant_witness :
    inv (execLoop 3 runningM [⟨7, 0⟩]).m :=
  currentState_invariant.2.2.2.2 3 runningM [⟨7, 0⟩] (by
    right; right
    exact ⟨((1, 7), ⟨2, false, none⟩), List.mem_singleton.mpr rfl, rfl⟩)

/-- C1 counterexample: the claim routes the orthogonal's dequeued event to
child B whenever B's recognized set contains it. On the code, with child B
recognizing event id 2 (machBrec has a table entry on id 2, though not from
its current state), feeding the composite the single event id 2 ends with the
event logged as unhandled and discarded at the root: B's trace is empty, the
queue is empty, and the orthogonal's own trace records the unhandled event —
the dequeued event was not delivered to B by the routing, which consults only
child A's recognized set. -/
theorem orth_routing_cex :
    2 ∈ machBrec.eventSet
  ∧ (orthExec 4 orthCex [⟨2, 0⟩]).trB = []
  ∧ (orthExec 4 orthCex [⟨2, 0⟩]).trSelf = [Obs.unhandledO ⟨2, 0⟩]
  ∧ (orthExec 4 orthCex [⟨2, 0⟩]).q = [] := by
  refine ⟨by decide, by decide, by decide, by decide⟩

/-- C1 amended: each orthogonal dispatch iteration first runs child A's
dispatch pass and then child B's over the shared queue; the event the
orthogonal machine then dequeues is routed by child A's recognized set only:
if the id is in A's set the event is pushed back to the front (A's next pass
receives it), and otherwise — whether or not B recognizes it — it is treated
as unhandled: pushed to the front for the parent when one exists, logged and
discarded at the root. B receives events only through its own pass. In the
spec's scenario (A recognizes ids 1 and 3, B recognizes id 2, feed 1,2,1,2),
A consumes exactly the two id-1 events in order, B exactly the two id-2
events in order, nothing is discarded, and no event is consumed by both. -/
theorem orth_routing_amended :
    (∀ (h1E : List Nat) (hp : Bool) (e : Event),
        (e.id ∈ h1E → orthRoute h1E hp e = .backToA)
      ∧ (e.id ∉ h1E → hp = true → orthRoute h1E hp e = .toParent)
      ∧ (e.id ∉ h1E → hp = false → orthRoute h1E hp e = .discardRoot))
  ∧ handledIds (orthExec 6 orthAB scenQ).trA = [1, 1]
  ∧ handledIds (orthExec 6 orthAB scenQ).trB = [2, 2]
  ∧ (orthExec 6 orthAB scenQ).trSelf = []
  ∧ (orthExec 6 orthAB scenQ).q = []
  ∧ ∀ x ∈ handledIds (orthExec 6 orthAB scenQ).trA,
      x ∉ handledIds (orthExec 6 orthAB scenQ).trB := by
  refine ⟨?_, by decide, by decide, by decide, by decide, by decide⟩
  intro h1E hp e
  refine ⟨fun h => ?_, fun h hp' => ?_, fun h hp' => ?_⟩
  · simp [orthRoute, h]
  · simp [orthRoute, h, hp']
  · simp [orthRoute, h, hp']

/-- C1 witness: the routing cases of the amended claim at concrete inputs —
id 1 is in the set of ids 1 and 3 and goes back for A; id 2 is not and is
discarded at the root, or handed to the parent when one exists. -/
theorem orth_routing_amended_witness :
    orthRoute [1, 3] false ⟨1, 0⟩ = Route.backToA
  ∧ orthRoute [1, 3] false ⟨2, 0⟩ = Route.discardRoot
  ∧ orthRoute [1, 3] true ⟨2, 0⟩ = Route.toParent :=
  ⟨(orth_routing_amended.1 [1, 3] false ⟨1, 0⟩).1 (by decide),
   (orth_routing_amended.1 [1, 3] false ⟨2, 0⟩).2.2 (by decide) rfl,
   (orth_routing_amended.1 [1, 3] true ⟨2, 0⟩).2.1 (by decide) rfl⟩

end Tsm
